import Mathlib

/-!
# Verification of the PDR-Date-Bot log/backup pipeline

A shallow embedding of the core of the PDR-Date-Bot repository:

* the log flush engine (`src/services/Logger.py`): greedy batching of pending
  log entries, posting to the log channel, archival of posted entries;
* the log repository (`src/database/log_repository.py`);
* the delivery layer's error handling (`src/services/Telegram.py`,
  `MessageSender.message`);
* the dual-store sync engine (`src/services/Users.py`,
  `src/database/user_repository.py`);
* the notification engine's period scan (`src/handlers/loops.py`).

Pure Python functions become Lean functions; database/session state becomes
explicit state passing over lists of records; exceptions become `Except`
values or explicit outcome oracles; `datetime` values become integer second
counts (Python `timedelta.days` floors, which is `Int.fdiv`).
-/

namespace PdrBot

/-! ## HTML helpers (`src/functions/html.py`)

`sub_tag` implements Python's `re.sub('<.*?>', '', text)`: it removes every
non-greedy match of `<` followed by non-newline characters up to the nearest
`>`.  We embed the regex as a one-pass scanner.  The scanner state carries the
characters consumed since the last pending `<` (in reverse order); a pending
run is dropped when a `>` arrives and emitted literally when a newline or the
end of the input arrives before any `>` (Python's `.` does not match `'\n'`,
so no match crosses a newline, and a `<` with no closing `>` on its line is
left in place). -/

/-- Scanner for `re.sub('<.*?>', '', ·)`.  `buf` is `some pending` when we
are inside a potential tag: `pending` holds the consumed characters (the
leading `'<'` last) in reverse order. -/
def subTagGo : List Char → Option (List Char) → List Char
  | [], none => []
  | [], some buf => buf.reverse
  | c :: rest, none =>
    if c = '<' then subTagGo rest (some [c])
    else c :: subTagGo rest none
  | c :: rest, some buf =>
    if c = '>' then subTagGo rest none
    else if c = '\n' then buf.reverse ++ '\n' :: subTagGo rest none
    else subTagGo rest (some (c :: buf))

/-- `sub_tag` from `functions/html.py`: strip all HTML tags. -/
def sub_tag (s : String) : String := ⟨subTagGo s.data none⟩

/-- `bold` from `functions/html.py`. -/
def bold (s : String) : String := "<b>" ++ s ++ "</b>"

/-- Python `str.strip('\n')` on the character list: drop leading and trailing
newline characters. -/
def stripData (l : List Char) : List Char :=
  ((l.dropWhile (· = '\n')).reverse.dropWhile (· = '\n')).reverse

/-- Python `str.strip('\n')`. -/
def stripNewlines (s : String) : String := ⟨stripData s.data⟩

/-! ## Log store (`src/database/models.py`, `src/database/log_repository.py`) -/

/-- A row of the `log` table.  `post_id`/`post_date` are `NULL` (here `none`)
while the entry is pending. -/
structure Log where
  id : Nat
  text : String
  post_id : Option Nat := none
  post_date : Option Int := none
  deriving Repr, DecidableEq

/-- `LogRepository.get_posted_logs`: all logs with a non-null `post_id`, in
store order (the store list is kept ordered by `id`). -/
def get_posted_logs (store : List Log) : List Log :=
  store.filter (fun l => l.post_id.isSome)

/-- `LogRepository.get_logs_to_post`: all logs with a null `post_id`. -/
def get_logs_to_post (store : List Log) : List Log :=
  store.filter (fun l => l.post_id.isNone)

/-- `LogRepository.update_posted_logs`: set `post_id`/`post_date` on every log
whose id is listed. -/
def update_posted_logs (store : List Log) (record_ids : List Nat)
    (post_id : Nat) (post_date : Int) : List Log :=
  store.map (fun l =>
    if l.id ∈ record_ids then { l with post_id := some post_id, post_date := some post_date }
    else l)

/-- `LogRepository.remove_posted_logs`: delete the logs whose id is listed
*and* whose `post_id` is non-null. -/
def remove_posted_logs (store : List Log) (record_ids : List Nat) : List Log :=
  store.filter (fun l => ¬ (l.id ∈ record_ids ∧ l.post_id.isSome))

/-! ## Log flush engine (`TelegramLogger.send_logs_to_telegram`)

`send_logs_to_telegram` fetches the pending logs (ordered by id), greedily
concatenates their texts into chunks whose tag-stripped length stays ≤ 4096,
and accumulates the flushed chunks in `logs_to_send = defaultdict(list)`
keyed by the chunk *text*: `logs_to_send[chunk].extend(ids)`.  We embed the
defaultdict as an insertion-ordered association list (`extendKey`), exactly
mirroring CPython's insertion-ordered `dict`. -/

/-- `logs_to_send[key].extend(ids)` on an insertion-ordered association list:
if the key is present its id list is extended in place, otherwise a new entry
is appended (this is what `defaultdict(list)` does, including the creation of
an entry bound to `[]` when `ids = []`). -/
def extendKey : List (String × List Nat) → String → List Nat → List (String × List Nat)
  | [], k, v => [(k, v)]
  | (k', v') :: rest, k, v =>
    if k' = k then (k', v' ++ v) :: rest
    else (k', v') :: extendKey rest k v

/-- The batching loop of `send_logs_to_telegram` (lines 856–869), state
`(current_log_ids, current_log_chunk, logs_to_send)`:

```python
for log in log_entries:
    if len(sub_tag(f'{current_log_chunk}{log.text}')) <= 4096:
        current_log_ids.append(log.id)
        current_log_chunk += f'{log.text}\n'
    else:
        logs_to_send[current_log_chunk.strip('\n')].extend(current_log_ids)
        current_log_ids = [log.id]
        current_log_chunk = f'{log.text}\n'
if current_log_chunk:
    logs_to_send[current_log_chunk.strip('\n')].extend(current_log_ids)
```
-/
def batchLoop : List Log → List Nat → String → List (String × List Nat) → List (String × List Nat)
  | [], ids, chunk, acc =>
    if chunk = "" then acc else extendKey acc (stripNewlines chunk) ids
  | log :: rest, ids, chunk, acc =>
    if (sub_tag (chunk ++ log.text)).length ≤ 4096 then
      batchLoop rest (ids ++ [log.id]) (chunk ++ log.text ++ "\n") acc
    else
      batchLoop rest [log.id] (log.text ++ "\n") (extendKey acc (stripNewlines chunk) ids)

/-- The `logs_to_send` dictionary produced by one flush cycle for the fetched
pending entries, as an insertion-ordered list of `(chunk text, entry ids)`. -/
def logs_to_send (entries : List Log) : List (String × List Nat) :=
  batchLoop entries [] "" []

/-- The ids of the entries in the order in which they are posted to the log
channel: the final `for log_chunk, log_ids in logs_to_send.items()` loop sends
one message per dictionary entry, in insertion order, and marks all of that
entry's ids with the returned message id. -/
def posted_id_order (entries : List Log) : List Nat :=
  ((logs_to_send entries).map Prod.snd).flatten

/-- The same batching loop without the dictionary: the sequence of flushed
`(chunk text, entry ids)` batches in flush order.  `batchLoop` is exactly a
left fold of `extendKey` over this sequence (`batchLoop_eq_foldl` below); the
two agree whenever the flushed chunk texts are pairwise distinct. -/
def flushes : List Log → List Nat → String → List (String × List Nat)
  | [], ids, chunk =>
    if chunk = "" then [] else [(stripNewlines chunk, ids)]
  | log :: rest, ids, chunk =>
    if (sub_tag (chunk ++ log.text)).length ≤ 4096 then
      flushes rest (ids ++ [log.id]) (chunk ++ log.text ++ "\n")
    else
      (stripNewlines chunk, ids) :: flushes rest [log.id] (log.text ++ "\n")

/-! ## Sending a chunk (`send_large_log` and the dispatch in
`send_logs_to_telegram`) -/

/-- A message posted to the log channel: its text and the id of the message it
replies to, if any. -/
structure SentMsg where
  text : String
  replyTo : Option Nat
  deriving Repr, DecidableEq

/-- `TelegramLogger.send_large_log` (lines 765–782): split the chunk on
`'</blockquote>\n'`, pop the first piece as the header, send the remaining
pieces re-joined with `'</blockquote>'` as the body, then send the header
(re-closed and marked `#split`) as a reply to the body message.  `bodyId` is
the platform id returned for the body message. -/
def send_large_log (log_chunk : String) (bodyId : Nat) : List SentMsg :=
  let split_log := log_chunk.splitOn "</blockquote>\n"
  let header := split_log.headD ""
  let body := String.intercalate "</blockquote>" split_log.tail
  [⟨body, none⟩,
   ⟨header ++ "</blockquote>\n" ++ bold "Большое сообщение" ++ ": #split", some bodyId⟩]

/-- The send dispatch of `send_logs_to_telegram` (lines 871–875): a chunk
whose raw length exceeds 4096 goes through `send_large_log`, any other chunk
is sent as a single message. -/
def dispatch_chunk (log_chunk : String) (bodyId : Nat) : List SentMsg :=
  if log_chunk.length > 4096 then send_large_log log_chunk bodyId
  else [⟨log_chunk, none⟩]

/-! ## Basic properties of `sub_tag` and `stripNewlines` -/

theorem subTagGo_append_newline : ∀ (cs : List Char) (buf : Option (List Char)),
    subTagGo (cs ++ ['\n']) buf = subTagGo cs buf ++ ['\n']
  | [], none => by simp [subTagGo]
  | [], some b => by simp [subTagGo]
  | c :: cs, none => by
    by_cases h : c = '<' <;>
      simp [subTagGo, h, subTagGo_append_newline cs]
  | c :: cs, some b => by
    by_cases h1 : c = '>'
    · simp [subTagGo, h1, subTagGo_append_newline cs]
    · by_cases h2 : c = '\n' <;>
        simp [subTagGo, h1, h2, subTagGo_append_newline cs]

/-- On input without `'<'`, `sub_tag` is the identity. -/
theorem subTagGo_no_lt : ∀ (cs : List Char), '<' ∉ cs → subTagGo cs none = cs
  | [], _ => rfl
  | c :: cs, h => by
    have hc : ¬ c = '<' := fun hc => h (hc ▸ List.mem_cons_self c cs)
    simp [subTagGo, hc, subTagGo_no_lt cs (fun hm => h (List.mem_cons_of_mem c hm))]

/-- An all-newline prefix passes through `sub_tag` unchanged. -/
theorem subTagGo_newline_prefix : ∀ (pre cs : List Char), (∀ c ∈ pre, c = '\n') →
    subTagGo (pre ++ cs) none = pre ++ subTagGo cs none
  | [], _, _ => rfl
  | c :: pre, cs, h => by
    have hc : c = '\n' := h c (List.mem_cons_self c pre)
    have : ¬ c = '<' := by simp [hc]
    simp [subTagGo, this,
      subTagGo_newline_prefix pre cs (fun x hx => h x (List.mem_cons_of_mem c hx))]

/-- An all-newline suffix passes through `sub_tag` unchanged. -/
theorem subTagGo_newline_suffix : ∀ (trail cs : List Char), (∀ c ∈ trail, c = '\n') →
    subTagGo (cs ++ trail) none = subTagGo cs none ++ trail
  | [], cs, _ => by simp
  | t :: ts, cs, h => by
    have ht : t = '\n' := h t (List.mem_cons_self t ts)
    have step : cs ++ t :: ts = (cs ++ ['\n']) ++ ts := by rw [ht]; simp
    rw [step, subTagGo_newline_suffix ts (cs ++ ['\n'])
      (fun x hx => h x (List.mem_cons_of_mem t hx)), subTagGo_append_newline]
    simp [ht]

/-- The stripped output is never longer than the input. -/
theorem subTagGo_length_le : ∀ (cs : List Char) (buf : Option (List Char)),
    (subTagGo cs buf).length ≤ cs.length + buf.elim 0 List.length
  | [], none => by simp [subTagGo]
  | [], some b => by simp [subTagGo]
  | c :: cs, none => by
    by_cases h : c = '<'
    · have ih := subTagGo_length_le cs (some [c])
      simp only [subTagGo, if_pos h, Option.elim, List.length_cons, List.length_nil] at ih ⊢
      omega
    · have ih := subTagGo_length_le cs none
      simp only [subTagGo, if_neg h, Option.elim, List.length_cons] at ih ⊢
      omega
  | c :: cs, some b => by
    by_cases h1 : c = '>'
    · have ih := subTagGo_length_le cs none
      simp only [subTagGo, if_pos h1, Option.elim, List.length_cons] at ih ⊢
      omega
    · by_cases h2 : c = '\n'
      · have ih := subTagGo_length_le cs none
        simp only [subTagGo, if_neg h1, if_pos h2, Option.elim, List.length_append,
          List.length_cons, List.length_reverse] at ih ⊢
        omega
      · have ih := subTagGo_length_le cs (some (c :: b))
        simp only [subTagGo, if_neg h1, if_neg h2, Option.elim, List.length_cons] at ih ⊢
        omega

theorem stripData_append_newline (l : List Char) : stripData (l ++ ['\n']) = stripData l := by
  unfold stripData
  rw [List.dropWhile_append]
  cases heq : List.dropWhile (fun c => decide (c = '\n')) l with
  | nil => simp [heq, List.dropWhile]
  | cons x xs =>
    simp only [heq, List.isEmpty_cons, Bool.false_eq_true, if_false]
    simp [List.reverse_append, List.dropWhile_cons]

/-- Any list splits as an all-newline prefix, its stripped core, and an
all-newline suffix. -/
theorem stripData_decomp (l : List Char) :
    ∃ lead trail, (∀ c ∈ lead, c = '\n') ∧ (∀ c ∈ trail, c = '\n') ∧
      l = lead ++ stripData l ++ trail := by
  refine ⟨l.takeWhile (· = '\n'),
    ((l.dropWhile (· = '\n')).reverse.takeWhile (· = '\n')).reverse, ?_, ?_, ?_⟩
  · intro c hc
    simpa using List.mem_takeWhile_imp hc
  · intro c hc
    rw [List.mem_reverse] at hc
    simpa using List.mem_takeWhile_imp hc
  · unfold stripData
    conv_lhs => rw [← List.takeWhile_append_dropWhile (p := (· = '\n')) (l := l)]
    rw [List.append_assoc]
    congr 1
    conv_rhs => rw [← List.reverse_append, List.takeWhile_append_dropWhile,
      List.reverse_reverse]

theorem sub_tag_stripData_le (l : List Char) :
    (subTagGo (stripData l) none).length ≤ (subTagGo l none).length := by
  obtain ⟨lead, trail, hlead, htrail, hdecomp⟩ := stripData_decomp l
  conv_rhs => rw [hdecomp]
  rw [List.append_assoc, subTagGo_newline_prefix lead _ hlead,
    subTagGo_newline_suffix trail _ htrail]
  simp only [List.length_append]
  omega

/-! String-level wrappers. -/

theorem String.data_append' (s t : String) : (s ++ t).data = s.data ++ t.data := rfl

theorem sub_tag_data (s : String) : (sub_tag s).data = subTagGo s.data none := rfl

theorem length_eq_data (s : String) : s.length = s.data.length := rfl

theorem stripNewlines_append_newline (s : String) :
    stripNewlines (s ++ "\n") = stripNewlines s := by
  unfold stripNewlines
  congr 1
  have : (s ++ "\n").data = s.data ++ ['\n'] := rfl
  rw [this, stripData_append_newline]

theorem sub_tag_strip_le (s : String) :
    (sub_tag (stripNewlines s)).length ≤ (sub_tag s).length :=
  sub_tag_stripData_le s.data

theorem sub_tag_append_newline (s : String) :
    sub_tag (s ++ "\n") = sub_tag s ++ "\n" := by
  apply String.ext
  show subTagGo (s ++ "\n").data none = subTagGo s.data none ++ ['\n']
  have : (s ++ "\n").data = s.data ++ ['\n'] := rfl
  rw [this, subTagGo_append_newline]

theorem sub_tag_length_le (s : String) : (sub_tag s).length ≤ s.length :=
  subTagGo_length_le s.data none

/-! ## Batching: relating the defaultdict to the flush sequence -/

theorem batchLoop_cons (log : Log) (rest : List Log) (ids : List Nat) (chunk : String)
    (acc : List (String × List Nat)) :
    batchLoop (log :: rest) ids chunk acc =
      if (sub_tag (chunk ++ log.text)).length ≤ 4096 then
        batchLoop rest (ids ++ [log.id]) (chunk ++ log.text ++ "\n") acc
      else
        batchLoop rest [log.id] (log.text ++ "\n") (extendKey acc (stripNewlines chunk) ids) :=
  rfl

theorem flushes_cons (log : Log) (rest : List Log) (ids : List Nat) (chunk : String) :
    flushes (log :: rest) ids chunk =
      if (sub_tag (chunk ++ log.text)).length ≤ 4096 then
        flushes rest (ids ++ [log.id]) (chunk ++ log.text ++ "\n")
      else
        (stripNewlines chunk, ids) :: flushes rest [log.id] (log.text ++ "\n") :=
  rfl

/-- `batchLoop` is the left fold of `extendKey` over the flush sequence. -/
theorem batchLoop_eq_foldl : ∀ (entries : List Log) (ids : List Nat) (chunk : String)
    (acc : List (String × List Nat)),
    batchLoop entries ids chunk acc =
      (flushes entries ids chunk).foldl (fun a p => extendKey a p.1 p.2) acc
  | [], ids, chunk, acc => by
    by_cases h : chunk = "" <;> simp [batchLoop, flushes, h]
  | log :: rest, ids, chunk, acc => by
    rw [batchLoop_cons, flushes_cons]
    by_cases h : (sub_tag (chunk ++ log.text)).length ≤ 4096
    · rw [if_pos h, if_pos h, batchLoop_eq_foldl]
    · rw [if_neg h, if_neg h, List.foldl_cons, batchLoop_eq_foldl]

/-- Extending a key that is not yet present appends a new entry. -/
theorem extendKey_fresh : ∀ (acc : List (String × List Nat)) (k : String) (v : List Nat),
    (∀ p ∈ acc, p.1 ≠ k) → extendKey acc k v = acc ++ [(k, v)]
  | [], _, _, _ => rfl
  | (k', v') :: rest, k, v, h => by
    have hk : k' ≠ k := h (k', v') (List.mem_cons_self _ _)
    simp only [extendKey, if_neg hk, List.cons_append, List.cons.injEq, true_and]
    exact extendKey_fresh rest k v (fun p hp => h p (List.mem_cons_of_mem _ hp))

/-- When all keys are pairwise distinct the defaultdict accumulates the flushed
batches in flush order without merging. -/
theorem foldl_extendKey_nodup : ∀ (fl acc : List (String × List Nat)),
    (acc.map Prod.fst ++ fl.map Prod.fst).Nodup →
    fl.foldl (fun a p => extendKey a p.1 p.2) acc = acc ++ fl
  | [], acc, _ => by simp
  | (k, v) :: fl, acc, h => by
    have hfresh : ∀ p ∈ acc, p.1 ≠ k := by
      intro p hp
      rcases List.nodup_append.1 h with ⟨-, -, hdisj⟩
      intro hk
      exact hdisj (List.mem_map_of_mem Prod.fst hp) (hk ▸ List.mem_cons_self _ _)
    have h' : ((acc ++ [(k, v)]).map Prod.fst ++ fl.map Prod.fst).Nodup := by
      simpa using h
    rw [List.foldl_cons]
    simp only []
    rw [extendKey_fresh acc k v hfresh, foldl_extendKey_nodup fl (acc ++ [(k, v)]) h']
    simp

theorem append_newline_ne_empty (s : String) : ¬ (s ++ "\n" = "") := by
  intro h
  have hlen := congrArg String.length h
  rw [String.length_append] at hlen
  have h1 : ("\n" : String).length = 1 := rfl
  have h0 : ("" : String).length = 0 := rfl
  omega

/-- The flush sequence partitions the fetched entry ids in order: flattening
the per-batch id lists gives back exactly the input ids. -/
theorem flushes_flatten : ∀ (entries : List Log) (ids : List Nat) (chunk : String),
    (chunk = "" → ids = []) →
    ((flushes entries ids chunk).map Prod.snd).flatten = ids ++ entries.map Log.id
  | [], ids, chunk, h => by
    by_cases hc : chunk = ""
    · simp [flushes, hc, h hc]
    · simp [flushes, hc]
  | log :: rest, ids, chunk, h => by
    rw [flushes_cons]
    by_cases hfit : (sub_tag (chunk ++ log.text)).length ≤ 4096
    · rw [if_pos hfit, flushes_flatten rest (ids ++ [log.id]) _
        (fun hc => absurd hc (append_newline_ne_empty _))]
      simp
    · rw [if_neg hfit]
      simp only [List.map_cons, List.flatten_cons]
      rw [flushes_flatten rest [log.id] _
        (fun hc => absurd hc (append_newline_ne_empty _))]
      simp

theorem posted_id_order_of_nodup (entries : List Log)
    (hnd : ((flushes entries [] "").map Prod.fst).Nodup) :
    posted_id_order entries = entries.map Log.id := by
  unfold posted_id_order logs_to_send
  rw [batchLoop_eq_foldl, foldl_extendKey_nodup _ [] (by simpa using hnd)]
  simpa using flushes_flatten entries [] "" (fun _ => rfl)

/-! ## Helpers for concrete batching computations -/

theorem sub_tag_no_lt (s : String) (h : '<' ∉ s.data) : sub_tag s = s := by
  show String.mk (subTagGo s.data none) = s
  rw [subTagGo_no_lt s.data h]

theorem dropWhile_newline_eq_self (l : List Char) (h : '\n' ∉ l) :
    List.dropWhile (fun c => decide (c = '\n')) l = l := by
  rw [List.dropWhile_eq_self_iff]
  intro hl
  simp only [decide_eq_true_eq]
  intro hc
  exact h (hc ▸ List.get_mem l 0 hl)

theorem stripData_no_newline (l : List Char) (h : '\n' ∉ l) : stripData l = l := by
  unfold stripData
  rw [dropWhile_newline_eq_self l h,
    dropWhile_newline_eq_self l.reverse (by simpa using h), List.reverse_reverse]

theorem stripNewlines_no_newline (s : String) (h : '\n' ∉ s.data) : stripNewlines s = s := by
  show String.mk (stripData s.data) = s
  rw [stripData_no_newline s.data h]

theorem empty_append_str (s : String) : "" ++ s = s := rfl

/-! ## Claim C1: FIFO posting

The counterexample below exhibits pending entries with strictly ascending ids
`1, 2, 3` whose first and third texts coincide.  Both become their own flushed
chunk, the `defaultdict` merges their id lists under the shared chunk text,
and the channel posting order of the ids becomes `[1, 3, 2]` — entry 3 is
posted before entry 2.  The FIFO property does hold as soon as the flushed
chunk texts are pairwise distinct (`C1_fifo_posting`). -/

/-- 2050 copies of `'a'`: long enough that two such texts cannot share a
chunk (2050 + 1 + 2050 > 4096) while one alone fits. -/
def strA : String := ⟨List.replicate 2050 'a'⟩

/-- 2050 copies of `'b'`. -/
def strB : String := ⟨List.replicate 2050 'b'⟩

/-- Three pending log entries with ascending ids; the first and third share
the same text. -/
def c1Entries : List Log :=
  [⟨1, strA, none, none⟩, ⟨2, strB, none, none⟩, ⟨3, strA, none, none⟩]

theorem batchLoop_nil (ids : List Nat) (chunk : String) (acc : List (String × List Nat)) :
    batchLoop [] ids chunk acc =
      if chunk = "" then acc else extendKey acc (stripNewlines chunk) ids :=
  rfl

theorem batchLoop_mk_cons (i : Nat) (t : String) (pid : Option Nat) (pd : Option Int)
    (rest : List Log) (ids : List Nat) (chunk : String) (acc : List (String × List Nat)) :
    batchLoop (⟨i, t, pid, pd⟩ :: rest) ids chunk acc =
      if (sub_tag (chunk ++ t)).length ≤ 4096 then
        batchLoop rest (ids ++ [i]) (chunk ++ t ++ "\n") acc
      else
        batchLoop rest [i] (t ++ "\n") (extendKey acc (stripNewlines chunk) ids) :=
  rfl

theorem extendKey_nil (k : String) (v : List Nat) : extendKey [] k v = [(k, v)] :=
  rfl

theorem extendKey_cons (k' : String) (v' : List Nat) (rest : List (String × List Nat))
    (k : String) (v : List Nat) :
    extendKey ((k', v') :: rest) k v =
      if k' = k then (k', v' ++ v) :: rest else (k', v') :: extendKey rest k v :=
  rfl

theorem logs_to_send_c1 : logs_to_send c1Entries = [(strA, [1, 3]), (strB, [2])] := by
  have memA : ∀ c ∈ strA.data, c = 'a' := by
    intro c hc
    rw [show strA.data = List.replicate 2050 'a' from rfl, List.mem_replicate] at hc
    exact hc.2
  have memB : ∀ c ∈ strB.data, c = 'b' := by
    intro c hc
    rw [show strB.data = List.replicate 2050 'b' from rfl, List.mem_replicate] at hc
    exact hc.2
  have hAlt : '<' ∉ strA.data := fun hm => absurd (memA _ hm) (by decide)
  have hBlt : '<' ∉ strB.data := fun hm => absurd (memB _ hm) (by decide)
  have hAnl : '\n' ∉ strA.data := fun hm => absurd (memA _ hm) (by decide)
  have hBnl : '\n' ∉ strB.data := fun hm => absurd (memB _ hm) (by decide)
  have hlenA : strA.length = 2050 := by
    show (List.replicate 2050 'a').length = 2050
    rw [List.length_replicate]
  have hlenB : strB.length = 2050 := by
    show (List.replicate 2050 'b').length = 2050
    rw [List.length_replicate]
  have hln : ("\n" : String).length = 1 := rfl
  have nlData : ("\n" : String).data = ['\n'] := rfl
  have c1 : (sub_tag ("" ++ strA)).length ≤ 4096 := by
    rw [empty_append_str, sub_tag_no_lt strA hAlt, hlenA]
    norm_num
  have noLtAB : '<' ∉ (strA ++ "\n" ++ strB).data := by
    rw [String.data_append', String.data_append', nlData]
    intro hm
    rcases List.mem_append.1 hm with hm1 | hm2
    · rcases List.mem_append.1 hm1 with hm3 | hm4
      · exact absurd (memA _ hm3) (by decide)
      · rcases List.mem_singleton.1 hm4 with h
        exact absurd h (by decide)
    · exact absurd (memB _ hm2) (by decide)
  have noLtBA : '<' ∉ (strB ++ "\n" ++ strA).data := by
    rw [String.data_append', String.data_append', nlData]
    intro hm
    rcases List.mem_append.1 hm with hm1 | hm2
    · rcases List.mem_append.1 hm1 with hm3 | hm4
      · exact absurd (memB _ hm3) (by decide)
      · rcases List.mem_singleton.1 hm4 with h
        exact absurd h (by decide)
    · exact absurd (memA _ hm2) (by decide)
  have c2 : ¬ (sub_tag (strA ++ "\n" ++ strB)).length ≤ 4096 := by
    rw [sub_tag_no_lt _ noLtAB, String.length_append, String.length_append,
      hlenA, hlenB, hln]
    norm_num
  have c3 : ¬ (sub_tag (strB ++ "\n" ++ strA)).length ≤ 4096 := by
    rw [sub_tag_no_lt _ noLtBA, String.length_append, String.length_append,
      hlenA, hlenB, hln]
    norm_num
  have hsA : stripNewlines (strA ++ "\n") = strA := by
    rw [stripNewlines_append_newline, stripNewlines_no_newline _ hAnl]
  have hsB : stripNewlines (strB ++ "\n") = strB := by
    rw [stripNewlines_append_newline, stripNewlines_no_newline _ hBnl]
  have hAB : ¬ (strB = strA) := by
    intro h
    have hb : 'b' ∈ strB.data := by
      rw [show strB.data = List.replicate 2050 'b' from rfl, List.mem_replicate]
      exact ⟨by decide, rfl⟩
    rw [h] at hb
    exact absurd (memA _ hb) (by decide)
  have hneA : ¬ (strA ++ "\n" = "") := append_newline_ne_empty _
  have hBA : ¬ (strA = strB) := fun h => hAB h.symm
  show batchLoop [(⟨1, strA, none, none⟩ : Log), ⟨2, strB, none, none⟩,
    ⟨3, strA, none, none⟩] [] "" [] = [(strA, [1, 3]), (strB, [2])]
  rw [batchLoop_mk_cons, if_pos c1, List.nil_append, empty_append_str,
    batchLoop_mk_cons, if_neg c2, hsA, extendKey_nil,
    batchLoop_mk_cons, if_neg c3, hsB, extendKey_cons, if_neg hBA, extendKey_nil,
    batchLoop_nil, if_neg hneA, hsA, extendKey_cons, if_pos rfl]
  rfl

theorem posted_order_c1 : posted_id_order c1Entries = [1, 3, 2] := by
  unfold posted_id_order
  rw [logs_to_send_c1]
  rfl

/-- **C1, counterexample.**  The pending entries `c1Entries` have strictly
ascending ids `[1, 2, 3]`, yet one run of the send pass posts their ids in
the order `[1, 3, 2]`: the first and third entries render to the same chunk
text, so `logs_to_send[chunk].extend(ids)` merges id 3 into the first chunk,
which is posted before the second chunk containing id 2.  The posting order
is therefore not non-decreasing. -/
theorem C1_counterexample :
    List.Chain' (· < ·) (c1Entries.map Log.id) ∧
    posted_id_order c1Entries = [1, 3, 2] ∧
    ¬ List.Chain' (· ≤ ·) (posted_id_order c1Entries) := by
  refine ⟨?_, posted_order_c1, ?_⟩
  · show List.Chain' (· < ·) [1, 2, 3]
    norm_num [List.chain'_cons]
  · rw [posted_order_c1]
    norm_num [List.chain'_cons]

/-- **C1 (amended).**  For pending log entries with ascending ids, one run of
the send pass posts the entries in non-decreasing id order — within each
batch and across batches — *provided the flushed chunk texts are pairwise
distinct*; in that case the posted id sequence is exactly the input id
sequence.  (When two flushed chunks share their text, the defaultdict
accumulator merges their id lists into the earlier chunk, which can reorder
ids across batches; see the counterexample.) -/
theorem C1_fifo_posting (entries : List Log)
    (hasc : List.Chain' (· < ·) (entries.map Log.id))
    (hnd : ((flushes entries [] "").map Prod.fst).Nodup) :
    posted_id_order entries = entries.map Log.id ∧
      List.Chain' (· ≤ ·) (posted_id_order entries) := by
  have h := posted_id_order_of_nodup entries hnd
  refine ⟨h, ?_⟩
  rw [h]
  exact List.Chain'.imp (fun a b => le_of_lt) hasc

/-- Witness for `C1_fifo_posting` at a concrete input: two small pending
entries that share one batch. -/
theorem C1_fifo_posting_witness :
    posted_id_order [(⟨1, "a", none, none⟩ : Log), ⟨2, "b", none, none⟩] =
        [(⟨1, "a", none, none⟩ : Log), ⟨2, "b", none, none⟩].map Log.id ∧
      List.Chain' (· ≤ ·)
        (posted_id_order [(⟨1, "a", none, none⟩ : Log), ⟨2, "b", none, none⟩]) :=
  C1_fifo_posting _ (by norm_num [List.chain'_cons]) (by decide)

/-! ## Claim C2: batch size bound -/

/-- Invariant carried by the batching loop state `(ids, chunk)` with respect
to the full entry list `E`: either the chunk (as it would be flushed) fits the
4096-character stripped limit, or the chunk holds exactly one entry whose own
stripped text exceeds the limit (a chunk only ever escapes the size check via
the `else` branch, which starts it from a single unchecked entry). -/
def ChunkInv (E : List Log) (ids : List Nat) (chunk : String) : Prop :=
  (sub_tag (stripNewlines chunk)).length ≤ 4096 ∨
    ∃ l ∈ E, ids = [l.id] ∧ 4096 < (sub_tag l.text).length

theorem flushes_bound : ∀ (entries E : List Log) (ids : List Nat) (chunk : String),
    (∀ l ∈ entries, l ∈ E) → ChunkInv E ids chunk →
    ∀ b ∈ flushes entries ids chunk,
      (sub_tag b.1).length ≤ 4096 ∨
        ∃ l ∈ E, b.2 = [l.id] ∧ 4096 < (sub_tag l.text).length
  | [], E, ids, chunk, _, hinv => by
    by_cases hc : chunk = ""
    · simp [flushes, hc]
    · intro b hb
      simp only [flushes, if_neg hc, List.mem_singleton] at hb
      subst hb
      exact hinv
  | log :: rest, E, ids, chunk, hsub, hinv => by
    rw [flushes_cons]
    by_cases hfit : (sub_tag (chunk ++ log.text)).length ≤ 4096
    · rw [if_pos hfit]
      refine flushes_bound rest E _ _ (fun l hl => hsub l (List.mem_cons_of_mem _ hl)) ?_
      left
      calc (sub_tag (stripNewlines (chunk ++ log.text ++ "\n"))).length
          = (sub_tag (stripNewlines (chunk ++ log.text))).length := by
            rw [stripNewlines_append_newline]
        _ ≤ (sub_tag (chunk ++ log.text)).length := sub_tag_strip_le _
        _ ≤ 4096 := hfit
    · rw [if_neg hfit]
      intro b hb
      rcases List.mem_cons.1 hb with hb1 | hb2
      · subst hb1
        exact hinv
      · refine flushes_bound rest E [log.id] (log.text ++ "\n")
          (fun l hl => hsub l (List.mem_cons_of_mem _ hl)) ?_ b hb2
        by_cases hself : (sub_tag log.text).length ≤ 4096
        · left
          calc (sub_tag (stripNewlines (log.text ++ "\n"))).length
              = (sub_tag (stripNewlines log.text)).length := by
                rw [stripNewlines_append_newline]
            _ ≤ (sub_tag log.text).length := sub_tag_strip_le _
            _ ≤ 4096 := hself
        · exact Or.inr ⟨log, hsub log (List.mem_cons_self _ _), rfl,
            lt_of_not_le hself⟩

/-- **C2.**  Every batch produced by one run of the flush engine has
tag-stripped length at most 4096, except a batch made of a single entry whose
own stripped text exceeds the limit; such an oversized batch is dispatched by
`send_large_log` as two messages — the body first (no reply target) and then
a short header ending in `": #split"` sent as a reply to the body message —
instead of one chunk. -/
theorem C2_batch_size_bound (entries : List Log) (b : String × List Nat)
    (hb : b ∈ flushes entries [] "") :
    (sub_tag b.1).length ≤ 4096 ∨
      ((∃ l ∈ entries, b.2 = [l.id] ∧ 4096 < (sub_tag l.text).length) ∧
        ∀ bodyId, ∃ bodyText pre,
          dispatch_chunk b.1 bodyId =
            [⟨bodyText, none⟩, ⟨pre ++ ": #split", some bodyId⟩]) := by
  have hQ := flushes_bound entries entries [] "" (fun _ hl => hl)
    (Or.inl (by decide)) b hb
  by_cases hsize : (sub_tag b.1).length ≤ 4096
  · exact Or.inl hsize
  · rcases hQ with h | h
    · exact Or.inl h
    · refine Or.inr ⟨h, fun bodyId => ?_⟩
      have hraw : 4096 < b.1.length :=
        lt_of_lt_of_le (lt_of_not_le hsize) (sub_tag_length_le _)
      unfold dispatch_chunk send_large_log
      rw [if_pos hraw]
      exact ⟨_, _, rfl⟩

/-- Witness for `C2_batch_size_bound` at a concrete input: a single small
entry forming the single batch `("hi", [1])`. -/
theorem C2_batch_size_bound_witness :
    (sub_tag ("hi" : String)).length ≤ 4096 ∨
      ((∃ l ∈ [(⟨1, "hi", none, none⟩ : Log)], [1] = [l.id] ∧
          4096 < (sub_tag l.text).length) ∧
        ∀ bodyId, ∃ bodyText pre,
          dispatch_chunk "hi" bodyId =
            [⟨bodyText, none⟩, ⟨pre ++ ": #split", some bodyId⟩]) :=
  C2_batch_size_bound [⟨1, "hi", none, none⟩] ("hi", [1]) (by decide)

/-! ## Claims C3 and C10: the archive step -/

/-- A delivered platform message: its channel message id and date. -/
structure TgMessage where
  message_id : Nat
  date : Int
  deriving Repr, DecidableEq

/-- `LOGS_CUTOFF` from `services/Logger.py`. -/
def LOGS_CUTOFF : Nat := 50000

/-- `TelegramLogger.send_message_to_log_channel`, with the three external
sends modelled as outcome oracles:

* `send_outcome` — the initial `log_sender.message` posting the chunk
  (`.ok none`: benign error swallowed, Python returns `None`;
  `.error`: exception propagates before any store write);
* `upload_outcome` — the backup-file upload to the archive channel;
* `notify_outcome` — the developer-channel notification.

The first component of the result is the final state of the log store (kept
even when an exception propagates, since every repository call commits its
own transaction); the second is the returned message or the propagated
exception. -/
def send_message_to_log_channel (store : List Log) (log_ids : List Nat)
    (send_outcome : Except Unit (Option TgMessage))
    (upload_outcome : Except Unit TgMessage)
    (notify_outcome : Except Unit Unit) :
    List Log × Except Unit (Option TgMessage) :=
  match send_outcome with
  | .error e => (store, .error e)
  | .ok none => (store, .ok none)
  | .ok (some m) =>
    let store1 := update_posted_logs store log_ids m.message_id m.date
    if m.message_id % LOGS_CUTOFF = 0 then
      let posted_logs := get_posted_logs store1
      if posted_logs.isEmpty then (store1, .ok (some m))
      else
        let log_ids_to_delete := posted_logs.map Log.id
        match upload_outcome with
        | .error e => (store1, .error e)
        | .ok _response =>
          let store2 := remove_posted_logs store1 log_ids_to_delete
          match notify_outcome with
          | .error e => (store2, .error e)
          | .ok _ => (store2, .ok (some m))
    else (store1, .ok (some m))

theorem remove_posted_logs_nil (store : List Log) : remove_posted_logs store [] = store := by
  unfold remove_posted_logs
  rw [List.filter_eq_self]
  intro a _
  simp

/-- **C3.**  In the archive step (triggered when the just-posted message id is
an exact multiple of 50,000), entries are deleted only after the upload
succeeded: if the upload raises, the store is left exactly as the mark-posted
update produced it (nothing deleted); if the upload succeeds, the posted
entries are removed after it. -/
theorem C3_archive_delete_after_upload (store : List Log) (log_ids : List Nat)
    (m : TgMessage) (e : Unit) (up : TgMessage) (notify : Except Unit Unit)
    (hcut : m.message_id % LOGS_CUTOFF = 0) :
    (send_message_to_log_channel store log_ids (.ok (some m)) (.error e) notify).1 =
        update_posted_logs store log_ids m.message_id m.date ∧
    (send_message_to_log_channel store log_ids (.ok (some m)) (.ok up) notify).1 =
        remove_posted_logs (update_posted_logs store log_ids m.message_id m.date)
          ((get_posted_logs (update_posted_logs store log_ids m.message_id m.date)).map
            Log.id) := by
  unfold send_message_to_log_channel
  dsimp only
  rw [if_pos hcut, if_pos hcut]
  by_cases hemp : (get_posted_logs (update_posted_logs store log_ids m.message_id m.date)).isEmpty
  · rw [if_pos hemp, if_pos hemp]
    have : get_posted_logs (update_posted_logs store log_ids m.message_id m.date) = [] :=
      List.isEmpty_iff.1 hemp
    rw [this]
    simp [remove_posted_logs_nil]
  · rw [if_neg hemp, if_neg hemp]
    cases notify with
    | error e' => exact ⟨rfl, rfl⟩
    | ok u => exact ⟨rfl, rfl⟩

/-- Witness for `C3_archive_delete_after_upload` at a concrete input: one
already-posted entry, a fresh posting with message id 50000. -/
theorem C3_archive_delete_after_upload_witness :
    (send_message_to_log_channel [⟨1, "x", some 7, some 0⟩] [2]
        (.ok (some ⟨50000, 5⟩)) (.error ()) (.ok ())).1 =
      update_posted_logs [⟨1, "x", some 7, some 0⟩] [2] 50000 5 ∧
    (send_message_to_log_channel [⟨1, "x", some 7, some 0⟩] [2]
        (.ok (some ⟨50000, 5⟩)) (.ok ⟨50001, 6⟩) (.ok ())).1 =
      remove_posted_logs (update_posted_logs [⟨1, "x", some 7, some 0⟩] [2] 50000 5)
        ((get_posted_logs (update_posted_logs [⟨1, "x", some 7, some 0⟩] [2] 50000 5)).map
          Log.id) :=
  C3_archive_delete_after_upload [⟨1, "x", some 7, some 0⟩] [2] ⟨50000, 5⟩ () ⟨50001, 6⟩
    (.ok ()) (by decide)

/-- **C10.**  `remove_posted_logs` only ever deletes entries whose posted
marker is set: any pending entry (`post_id = none`) stays in the store
unchanged, even when its id is in the deletion list. -/
theorem C10_remove_preserves_pending (store : List Log) (record_ids : List Nat)
    (l : Log) (hl : l ∈ store) (hpending : l.post_id = none) :
    l ∈ remove_posted_logs store record_ids := by
  unfold remove_posted_logs
  refine List.mem_filter.2 ⟨hl, ?_⟩
  simp [hpending]

/-- Witness for `C10_remove_preserves_pending` at a concrete input: a pending
entry whose id is explicitly listed for deletion. -/
theorem C10_remove_preserves_pending_witness :
    (⟨1, "x", none, none⟩ : Log) ∈ remove_posted_logs [⟨1, "x", none, none⟩] [1] :=
  C10_remove_preserves_pending [⟨1, "x", none, none⟩] [1] ⟨1, "x", none, none⟩
    (by decide) rfl

/-! ## Claims C6 and C7: the delivery layer's error handling
(`MessageSender.message`, `src/services/Telegram.py` lines 345–371)

The `except` block classifies the error by pattern-matching its text and then
sleeps/retries, swallows, or re-raises.  We embed the classification over the
error text and record the resulting actions as a list of effects.  Sleep
durations are measured in tenths of a second so that `0.1 * attempt ** (attempt - 1)`
and `retry_after + 1` are exact naturals. -/

/-- Python `\d+` at the current position. -/
def takeDigits : List Char → List Char
  | [] => []
  | c :: rest => if c.isDigit then c :: takeDigits rest else []

/-- Numeric value of a digit run. -/
def digitsToNat (ds : List Char) : Nat :=
  ds.foldl (fun acc c => acc * 10 + (c.toNat - 48)) 0

/-- One alternation branch of
`(Too Many Requests: retry after|Retry in|Please try again in) (\d+)`:
the branch text (with the following literal space) must start here, followed
by at least one digit. -/
def tryPattern (pat : String) (l : List Char) : Option Nat :=
  if pat.data.isPrefixOf l then
    let ds := takeDigits (l.drop pat.data.length)
    if ds.isEmpty then none else some (digitsToNat ds)
  else none

/-- The regex search `re.search(r'(Too Many Requests: retry after|Retry in|Please try again in) (\d+)...', error)`:
scan left to right, at each position try the alternation branches in order,
and return the parsed retry-after seconds of the leftmost match. -/
def parse_retry_after_go : List Char → Option Nat
  | [] => none
  | c :: rest =>
    match tryPattern "Too Many Requests: retry after " (c :: rest) with
    | some n => some n
    | none =>
      match tryPattern "Retry in " (c :: rest) with
      | some n => some n
      | none =>
        match tryPattern "Please try again in " (c :: rest) with
        | some n => some n
        | none => parse_retry_after_go rest

def parse_retry_after (err : String) : Option Nat :=
  parse_retry_after_go err.data

/-- Does `pat` occur starting at some position of the list? -/
def contains_go (pat : List Char) : List Char → Bool
  | [] => pat.isEmpty
  | c :: rest => pat.isPrefixOf (c :: rest) || contains_go pat rest

/-- `re.search(pat, err)` for a plain-text pattern: substring containment. -/
def contains_str (err pat : String) : Bool :=
  contains_go pat.data err.data

/-- The transient classification: a parsed retry-after hint or one of the four
fixed network-failure signatures. -/
def is_transient_error (err : String) : Bool :=
  (parse_retry_after err).isSome
    || contains_str err "Temporary failure in name resolution"
    || contains_str err "Cannot connect to host api.telegram.org"
    || contains_str err "Connection to api.telegram.org timed out"
    || contains_str err "Error code: 502. Description: Bad Gateway"

/-- The benign classification: `re.search('(Query is too old|exactly the same)', error)`. -/
def is_benign_error (err : String) : Bool :=
  contains_str err "Query is too old" || contains_str err "exactly the same"

/-- Observable actions of the `except` block. -/
inductive Effect where
  /-- sleep for `ds` tenths of a second -/
  | sleepDs (ds : Nat)
  /-- recursive self-call with identical arguments and this attempt counter -/
  | retry (attempt : Nat)
  /-- surface the error to an error-reporting collaborator
      (never emitted by this code; used to state the spec's claim) -/
  | report
  /-- re-raise the error to the caller -/
  | raiseErr
  /-- swallow the error; the call returns `None` -/
  | retNone
  deriving Repr, DecidableEq

/-- The `except` block of `MessageSender.message`:

```python
except IndexError and Exception as error:
    search_retry = re.search(r'(...) (\d+)...', str(error))
    if (search_retry or <network signatures>):
        if search_retry:
            await asyncio.sleep(int(search_retry.group(2)) + 1)
        else:
            attempt += 1
            await asyncio.sleep(0.1 * (attempt ** (attempt - 1)))
        response = await self.message(<same arguments>, attempt)
    elif re.search('(Query is too old|exactly the same)', str(error)):
        pass
    elif raises:
        raise error
```
-/
def handle_send_error (err : String) (raises : Bool) (attempt : Nat) : List Effect :=
  if is_transient_error err then
    match parse_retry_after err with
    | some n => [.sleepDs (10 * (n + 1)), .retry attempt]
    | none => [.sleepDs ((attempt + 1) ^ attempt), .retry (attempt + 1)]
  else if is_benign_error err then [.retNone]
  else if raises then [.raiseErr]
  else [.retNone]

/-- **C7.**  On a transient error: with a parsed retry-after `n` the call
sleeps exactly `n + 1` seconds (`10 * (n + 1)` tenths) and retries with the
same arguments and an unchanged attempt counter; otherwise it increments the
attempt counter to `attempt + 1` and sleeps `0.1 * (attempt + 1) ^ attempt`
seconds (`(attempt + 1) ^ attempt` tenths) before retrying.  In either case a
retry always happens — there is no maximum-attempt cap. -/
theorem C7_transient_retry (err : String) (raises : Bool) (attempt : Nat)
    (htr : is_transient_error err = true) :
    (∀ n, parse_retry_after err = some n →
        handle_send_error err raises attempt =
          [Effect.sleepDs (10 * (n + 1)), Effect.retry attempt]) ∧
    (parse_retry_after err = none →
        handle_send_error err raises attempt =
          [Effect.sleepDs ((attempt + 1) ^ attempt), Effect.retry (attempt + 1)]) ∧
    (∃ a, Effect.retry a ∈ handle_send_error err raises attempt) := by
  unfold handle_send_error
  rw [htr, if_pos rfl]
  refine ⟨fun n hn => ?_, fun hn => ?_, ?_⟩
  · rw [hn]
  · rw [hn]
  · cases hp : parse_retry_after err with
    | none => exact ⟨attempt + 1, by simp⟩
    | some n => exact ⟨attempt, by simp⟩

/-- Witness for `C7_transient_retry` at a concrete input: a rate-limit error
with retry-after 5 sleeps 6 seconds and retries with the unchanged attempt
counter 0. -/
theorem C7_transient_retry_witness :
    handle_send_error "Too Many Requests: retry after 5" true 0 =
      [Effect.sleepDs 60, Effect.retry 0] :=
  (C7_transient_retry "Too Many Requests: retry after 5" true 0 (by decide)).1 5 (by decide)

/-- **C6, counterexample.**  For the error text `"boom"` — neither transient
nor benign — a call with `raises = False` swallows the error with *no*
surfacing to any error-reporting collaborator: the only effect is returning
`None`.  The claim's "swallowed after being surfaced to the error-reporting
collaborator" is false of this code path. -/
theorem C6_counterexample :
    handle_send_error "boom" false 0 = [Effect.retNone] ∧
    Effect.report ∉ handle_send_error "boom" false 0 := by
  constructor
  · decide
  · decide

/-- **C6 (amended).**  For a non-transient error (the transient classification
is checked first): if it matches the benign class it is swallowed silently and
the call returns no message; otherwise it is re-raised when raising is
enabled, and when the caller opted out of raising it is swallowed silently —
without being surfaced to any error-reporting collaborator. -/
theorem C6_error_classes (err : String) (raises : Bool) (attempt : Nat)
    (hnt : is_transient_error err = false) :
    (is_benign_error err = true →
        handle_send_error err raises attempt = [Effect.retNone]) ∧
    (is_benign_error err = false → raises = true →
        handle_send_error err raises attempt = [Effect.raiseErr]) ∧
    (is_benign_error err = false → raises = false →
        handle_send_error err raises attempt = [Effect.retNone] ∧
          Effect.report ∉ handle_send_error err raises attempt) := by
  unfold handle_send_error
  rw [hnt]
  simp only [Bool.false_eq_true, if_false]
  refine ⟨fun hb => ?_, fun hb hr => ?_, fun hb hr => ?_⟩
  · rw [hb]
    simp
  · rw [hb, hr]
    simp
  · rw [hb, hr]
    simp

/-- Witness for `C6_error_classes` at a concrete input: an already-answered
callback error is swallowed, returning no message. -/
theorem C6_error_classes_witness :
    handle_send_error "Query is too old" true 0 = [Effect.retNone] :=
  (C6_error_classes "Query is too old" true 0 (by decide)).1 (by decide)

/-! ## Record model (`src/database/models.py`) -/

/-- A row of the users table. -/
structure User where
  id : Int
  full_name : String := ""
  username : Option String := none
  language : String := "ru"
  reaction : Bool := false
  google_row_id : Nat := 1
  needs_backup_update : Bool := false
  deriving Repr, DecidableEq

/-- A row of the user-pregnancy (date-record) table.  Dates are modelled as
seconds (`Int`). -/
structure UserPregnancy where
  id : Nat
  user_id : Int
  chat_id : Int
  pdr_date : Option Int := none
  period_date : Option Int := none
  gender : Option Nat := none
  needs_backup_update : Bool := false
  deriving Repr, DecidableEq

/-! ## Claim C8: the period scan
(`TaskHandlers.new_period_notify`, `UserTextGenerator.get_weeks_and_days_from_date`)

Times are seconds.  Python's `timedelta.days` floors (`Int.fdiv · 86400`),
`//` floors (`Int.fdiv`). -/

/-- `UserTextGenerator.get_weeks_and_days_from_date`:
`difference = now - date`; `weeks = int(difference.days // 7)`;
`days = difference.days - weeks * 7`.  Returns `(difference, weeks, days)`
with `difference` in seconds. -/
def get_weeks_and_days_from_date (now date : Int) : Int × Int × Int :=
  let difference := now - date
  let differenceDays := Int.fdiv difference 86400
  let weeks := Int.fdiv differenceDays 7
  let days := differenceDays - weeks * 7
  (difference, weeks, days)

/-- The per-record decision of `TaskHandlers.new_period_notify` for a record
with `period_date = some period_date` (the query only returns such records):

```python
difference, weeks, days = ...get_weeks_and_days_from_date(now, pregnancy.period_date)
if not pregnancy.pdr_date:
    if weeks <= 40: is_notify_allowed = True
elif now < pregnancy.pdr_date:
    is_notify_allowed = True
if days == 0 and is_notify_allowed: <send + log>
```
-/
def new_period_fires (now : Int) (pdr_date : Option Int) (period_date : Int) : Bool :=
  let wd := get_weeks_and_days_from_date now period_date
  let weeks := wd.2.1
  let days := wd.2.2
  let is_notify_allowed : Bool :=
    match pdr_date with
    | none => decide (weeks ≤ 40)
    | some pdr => decide (now < pdr)
  decide (days = 0) && is_notify_allowed

theorem weeks_days_59 (now : Int) :
    get_weeks_and_days_from_date now (now - 59 * 86400) = (59 * 86400, 8, 3) := by
  unfold get_weeks_and_days_from_date
  have h1 : now - (now - 59 * 86400) = 59 * 86400 := by ring
  simp only [h1]
  decide

/-- **C8.**  A date-record with a secondary (period) date fires on a scan tick
exactly when (a) either no primary (PDR) date is set and the elapsed whole
weeks are at most 40, or a primary date is set and `now` is strictly before
it, and (b) the elapsed days beyond whole weeks equal 0.  In particular a
secondary date of `now` minus 8 weeks and 3 days (59 days) never fires. -/
theorem C8_period_scan (now period : Int) (pdr : Option Int) :
    (new_period_fires now pdr period = true ↔
      ((pdr = none ∧ (get_weeks_and_days_from_date now period).2.1 ≤ 40) ∨
        (∃ d, pdr = some d ∧ now < d)) ∧
      (get_weeks_and_days_from_date now period).2.2 = 0) ∧
    new_period_fires now pdr (now - 59 * 86400) = false := by
  constructor
  · cases pdr with
    | none =>
      unfold new_period_fires
      simp only [Bool.and_eq_true, decide_eq_true_eq]
      constructor
      · rintro ⟨hd, hw⟩
        exact ⟨Or.inl ⟨by trivial, hw⟩, hd⟩
      · rintro ⟨h, hd⟩
        refine ⟨hd, ?_⟩
        rcases h with ⟨-, hw⟩ | ⟨d, hd', -⟩
        · exact hw
        · exact absurd hd' (by simp)
    | some d =>
      unfold new_period_fires
      simp only [Bool.and_eq_true, decide_eq_true_eq]
      constructor
      · rintro ⟨hd, hw⟩
        exact ⟨Or.inr ⟨d, rfl, hw⟩, hd⟩
      · rintro ⟨h, hd⟩
        refine ⟨hd, ?_⟩
        rcases h with ⟨hnone, -⟩ | ⟨d', hd', hlt⟩
        · exact absurd hnone (by simp)
        · injection hd' with h
          subst h
          exact hlt
  · unfold new_period_fires
    rw [weeks_days_59]
    simp

/-! ## Claim C9: row-pointer allocation
(`UserRepository.create_user`, `UserPregnancyRepository.get_or_create_user_pregnancy`) -/

/-- `SELECT max(google_row_id)` over the users table, as a fold (0 plays the
role of SQL's `NULL` on an empty table, since row pointers are positive). -/
def max_google_row_id (store : List User) : Nat :=
  store.foldl (fun m u => max m u.google_row_id) 0

/-- Python's `result.scalar() or 1`: `None` (empty table, here 0) is falsy and
replaced by `1`. -/
def scalar_or_one (m : Nat) : Nat :=
  if m = 0 then 1 else m

/-- `UserRepository.create_user`: assign `google_row_id := max_id + 1`, set
the reaction and the dirty flag, insert the record. -/
def create_user (store : List User) (new_user : User) (reaction : Bool) :
    List User × User :=
  let max_id := scalar_or_one (max_google_row_id store)
  let u := { new_user with
    reaction := reaction, google_row_id := max_id + 1, needs_backup_update := true }
  (store ++ [u], u)

/-- `SELECT max(id)` over the pregnancy table. -/
def max_pregnancy_id (store : List UserPregnancy) : Nat :=
  store.foldl (fun m p => max m p.id) 0

/-- `UserPregnancyRepository.get_or_create_user_pregnancy`: return the first
record matching `(user_id, chat_id)`; otherwise create one with
`id := max_id + 1` and all dates unset. -/
def get_or_create_user_pregnancy (store : List UserPregnancy) (user_id chat_id : Int) :
    List UserPregnancy × UserPregnancy :=
  match store.find? (fun p => p.user_id = user_id ∧ p.chat_id = chat_id) with
  | some response => (store, response)
  | none =>
    let max_id := scalar_or_one (max_pregnancy_id store)
    let response : UserPregnancy :=
      { id := max_id + 1, user_id := user_id, chat_id := chat_id,
        gender := none, pdr_date := none, period_date := none,
        needs_backup_update := true }
    (store ++ [response], response)

theorem foldl_max_init_le {α : Type} (f : α → Nat) :
    ∀ (l : List α) (init : Nat), init ≤ l.foldl (fun m x => max m (f x)) init
  | [], _ => le_refl _
  | x :: l, init =>
    le_trans (le_max_left _ (f x)) (foldl_max_init_le f l (max init (f x)))

theorem mem_le_foldl_max {α : Type} (f : α → Nat) :
    ∀ (l : List α) (init : Nat) (a : α), a ∈ l →
      f a ≤ l.foldl (fun m x => max m (f x)) init
  | x :: l, init, a, h => by
    rcases List.mem_cons.1 h with h1 | h2
    · subst h1
      exact le_trans (le_max_right init (f a)) (foldl_max_init_le f l _)
    · exact mem_le_foldl_max f l _ a h2

theorem scalar_or_one_of_pos {m : Nat} (h : 1 ≤ m) : scalar_or_one m = m := by
  unfold scalar_or_one
  rw [if_neg (by omega)]

theorem scalar_or_one_pos (m : Nat) : 1 ≤ scalar_or_one m := by
  unfold scalar_or_one
  by_cases h : m = 0
  · rw [if_pos h]
  · rw [if_neg h]
    omega

/-- **C9.**  At record creation the spreadsheet row pointer (`google_row_id`
for users, `id` for date-records) is assigned `max(existing) + 1` (provided
some existing pointer is ≥ 1, which holds in every reachable store since
pointers start at 1), strictly greater than every existing pointer; and since
creation only ever appends, a subsequent creation assigns a strictly larger
pointer again — pointers are never reused. -/
theorem C9_row_pointer_allocation (store : List User) (new_user v : User)
    (reaction r : Bool) (pstore : List UserPregnancy) (uid cid : Int)
    (hex : ∃ u ∈ store, 1 ≤ u.google_row_id)
    (hnokey : ∀ p ∈ pstore, ¬ (p.user_id = uid ∧ p.chat_id = cid))
    (hexp : ∃ p ∈ pstore, 1 ≤ p.id) :
    ((create_user store new_user reaction).2.google_row_id =
        max_google_row_id store + 1 ∧
      ∀ u ∈ store, u.google_row_id < (create_user store new_user reaction).2.google_row_id) ∧
    ((get_or_create_user_pregnancy pstore uid cid).2.id = max_pregnancy_id pstore + 1 ∧
      ∀ p ∈ pstore, p.id < (get_or_create_user_pregnancy pstore uid cid).2.id) ∧
    (create_user store new_user reaction).2.google_row_id <
      (create_user (create_user store new_user reaction).1 v r).2.google_row_id := by
  obtain ⟨u0, hu0, hu0pos⟩ := hex
  obtain ⟨p0, hp0, hp0pos⟩ := hexp
  have hmax : 1 ≤ max_google_row_id store :=
    le_trans hu0pos (mem_le_foldl_max User.google_row_id store 0 u0 hu0)
  have hmaxp : 1 ≤ max_pregnancy_id pstore :=
    le_trans hp0pos (mem_le_foldl_max UserPregnancy.id pstore 0 p0 hp0)
  have hfind : pstore.find? (fun p => p.user_id = uid ∧ p.chat_id = cid) = none := by
    rw [List.find?_eq_none]
    intro p hp
    simpa using hnokey p hp
  refine ⟨⟨?_, ?_⟩, ⟨?_, ?_⟩, ?_⟩
  · show scalar_or_one (max_google_row_id store) + 1 = max_google_row_id store + 1
    rw [scalar_or_one_of_pos hmax]
  · intro u hu
    show u.google_row_id < scalar_or_one (max_google_row_id store) + 1
    rw [scalar_or_one_of_pos hmax]
    exact Nat.lt_succ_of_le (mem_le_foldl_max User.google_row_id store 0 u hu)
  · unfold get_or_create_user_pregnancy
    rw [hfind]
    show scalar_or_one (max_pregnancy_id pstore) + 1 = max_pregnancy_id pstore + 1
    rw [scalar_or_one_of_pos hmaxp]
  · intro p hp
    unfold get_or_create_user_pregnancy
    rw [hfind]
    show p.id < scalar_or_one (max_pregnancy_id pstore) + 1
    rw [scalar_or_one_of_pos hmaxp]
    exact Nat.lt_succ_of_le (mem_le_foldl_max UserPregnancy.id pstore 0 p hp)
  · show scalar_or_one (max_google_row_id store) + 1 <
      scalar_or_one (max_google_row_id ((create_user store new_user reaction).1)) + 1
    have hmem : (create_user store new_user reaction).2 ∈ (create_user store new_user reaction).1 := by
      show _ ∈ store ++ [_]
      exact List.mem_append_right _ (List.mem_singleton.2 rfl)
    have hle : (create_user store new_user reaction).2.google_row_id ≤
        max_google_row_id ((create_user store new_user reaction).1) :=
      mem_le_foldl_max User.google_row_id _ 0 _ hmem
    have hass : (create_user store new_user reaction).2.google_row_id =
        scalar_or_one (max_google_row_id store) + 1 := rfl
    have h2 : 1 ≤ scalar_or_one (max_google_row_id store) := scalar_or_one_pos _
    have h3 : 1 ≤ max_google_row_id ((create_user store new_user reaction).1) := by omega
    rw [scalar_or_one_of_pos h3]
    omega

/-- Witness for `C9_row_pointer_allocation` at concrete stores with one user
(pointer 3) and one date-record (pointer 2). -/
theorem C9_row_pointer_allocation_witness :
    ((create_user [⟨5, "n", none, "ru", false, 3, false⟩] ⟨6, "m", none, "ru", false, 1, false⟩
        true).2.google_row_id =
      max_google_row_id [⟨5, "n", none, "ru", false, 3, false⟩] + 1 ∧
      ∀ u ∈ [(⟨5, "n", none, "ru", false, 3, false⟩ : User)],
        u.google_row_id <
          (create_user [⟨5, "n", none, "ru", false, 3, false⟩]
            ⟨6, "m", none, "ru", false, 1, false⟩ true).2.google_row_id) ∧
    ((get_or_create_user_pregnancy [⟨2, 1, 1, none, none, none, false⟩] 9 9).2.id =
      max_pregnancy_id [⟨2, 1, 1, none, none, none, false⟩] + 1 ∧
      ∀ p ∈ [(⟨2, 1, 1, none, none, none, false⟩ : UserPregnancy)],
        p.id < (get_or_create_user_pregnancy [⟨2, 1, 1, none, none, none, false⟩] 9 9).2.id) ∧
    (create_user [⟨5, "n", none, "ru", false, 3, false⟩] ⟨6, "m", none, "ru", false, 1, false⟩
        true).2.google_row_id <
      (create_user (create_user [⟨5, "n", none, "ru", false, 3, false⟩]
          ⟨6, "m", none, "ru", false, 1, false⟩ true).1
        ⟨7, "p", none, "ru", false, 1, false⟩ false).2.google_row_id :=
  C9_row_pointer_allocation [⟨5, "n", none, "ru", false, 3, false⟩]
    ⟨6, "m", none, "ru", false, 1, false⟩ ⟨7, "p", none, "ru", false, 1, false⟩
    true false [⟨2, 1, 1, none, none, none, false⟩] 9 9
    (by decide) (by decide) (by decide)

/-! ## Claim C4: the push pipeline (`UsersUpdater.back_up_users`)

The spreadsheet worksheet is modelled as a total map from row number to the
row's cells (the success path: the `add_rows(1000)`-and-retry remediation for
out-of-range rows does not change what is finally written). -/

/-- `UserRepository.get_users_to_backup`: all dirty users. -/
def get_users_to_backup (store : List User) : List User :=
  store.filter (fun u => u.needs_backup_update)

/-- `UserRepository.mark_user_as_synced`. -/
def mark_user_as_synced (u : User) : User :=
  { u with needs_backup_update := false }

/-- `UserPregnancyRepository.get_pregnancies_to_backup`: all dirty records. -/
def get_pregnancies_to_backup (store : List UserPregnancy) : List UserPregnancy :=
  store.filter (fun p => p.needs_backup_update)

/-- `UserPregnancyRepository.mark_pregnancy_as_synced`. -/
def mark_pregnancy_as_synced (p : UserPregnancy) : UserPregnancy :=
  { p with needs_backup_update := false }

/-- `user.username or 'None'`: `None` and the empty string are falsy. -/
def username_or_none : Option String → String
  | none => "None"
  | some s => if s = "" then "None" else s

/-- The five cells `A{row}:E{row}` written for a user:
`[id, full_name, username or 'None', language, '✅' if reaction else '🅾️']`. -/
def serialize_user (u : User) : List String :=
  [toString u.id, u.full_name, username_or_none u.username, u.language,
   if u.reaction then "✅" else "🅾️"]

/-- A date cell: `isoformat` of the date, or `'None'` when unset (the date
itself is rendered by `toString` in this model). -/
def serialize_date_cell : Option Int → String
  | none => "None"
  | some d => toString d

/-- The four cells `A{row}:D{row}` written for a date-record:
`[user_id, chat_id, pdr_date_text, period_date_text]`. -/
def serialize_pregnancy (p : UserPregnancy) : List String :=
  [toString p.user_id, toString p.chat_id,
   serialize_date_cell p.pdr_date, serialize_date_cell p.period_date]

/-- The user half of `UsersUpdater.back_up_users`: for each dirty user, in
order, overwrite the sheet row addressed by its `google_row_id` with its
serialized cells and clear its dirty flag — one record at a time. -/
def back_up_users (store : List User) (sheet : Nat → List String) :
    List User × (Nat → List String) :=
  let users := get_users_to_backup store
  let sheet' := users.foldl
    (fun sh u => fun i => if i = u.google_row_id then serialize_user u else sh i) sheet
  let store' := store.map (fun u =>
    if u.needs_backup_update then mark_user_as_synced u else u)
  (store', sheet')

/-- The date half of `UsersUpdater.back_up_users`: identical shape, rows
addressed by the record `id`. -/
def back_up_user_dates (store : List UserPregnancy) (sheet : Nat → List String) :
    List UserPregnancy × (Nat → List String) :=
  let dates := get_pregnancies_to_backup store
  let sheet' := dates.foldl
    (fun sh p => fun i => if i = p.id then serialize_pregnancy p else sh i) sheet
  let store' := store.map (fun p =>
    if p.needs_backup_update then mark_pregnancy_as_synced p else p)
  (store', sheet')

/-- Rows whose index is written by no record keep their previous value. -/
theorem foldl_write_frame {α : Type} (key : α → Nat) (val : α → List String) :
    ∀ (l : List α) (sheet : Nat → List String) (i : Nat), (∀ x ∈ l, key x ≠ i) →
      (l.foldl (fun sh x => fun j => if j = key x then val x else sh j) sheet) i = sheet i
  | [], _, _, _ => rfl
  | x :: l, sheet, i, h => by
    rw [List.foldl_cons,
      foldl_write_frame key val l _ i (fun y hy => h y (List.mem_cons_of_mem _ hy))]
    exact if_neg (fun hi => h x (List.mem_cons_self _ _) hi.symm)

/-- With pairwise distinct row pointers, each record's row ends up holding
exactly that record's serialized cells. -/
theorem foldl_write_of_nodup {α : Type} (key : α → Nat) (val : α → List String) :
    ∀ (l : List α) (sheet : Nat → List String) (u : α), u ∈ l → (l.map key).Nodup →
      (l.foldl (fun sh x => fun j => if j = key x then val x else sh j) sheet) (key u) = val u
  | x :: l, sheet, u, hu, hnd => by
    rcases List.mem_cons.1 hu with h1 | h2
    · subst h1
      rw [List.foldl_cons, foldl_write_frame key val l _ (key u) ?frame]
      · exact if_pos rfl
      case frame =>
        intro y hy hk
        have : key u ∈ l.map key := hk ▸ List.mem_map_of_mem key hy
        exact (List.nodup_cons.1 (by simpa using hnd)).1 this
    · rw [List.foldl_cons]
      exact foldl_write_of_nodup key val l _ u h2 (List.nodup_cons.1 (by simpa using hnd)).2

/-- **C4.**  Given a store with `N` dirty records (with pairwise distinct row
pointers, as allocated), one run of the push pipeline clears the dirty flag
on every record of the store and writes each dirty record's serialized cells
into the sheet row addressed by its row pointer, so the mirrored rows equal
the transactional values field-for-field.  Both halves (users and
date-records) behave identically. -/
theorem C4_push_sync (store : List User) (sheet : Nat → List String)
    (pstore : List UserPregnancy) (psheet : Nat → List String)
    (hnd : ((get_users_to_backup store).map User.google_row_id).Nodup)
    (hndp : ((get_pregnancies_to_backup pstore).map UserPregnancy.id).Nodup) :
    (∀ u ∈ (back_up_users store sheet).1, u.needs_backup_update = false) ∧
    (∀ u ∈ store, u.needs_backup_update = true →
      (back_up_users store sheet).2 u.google_row_id = serialize_user u) ∧
    (∀ p ∈ (back_up_user_dates pstore psheet).1, p.needs_backup_update = false) ∧
    (∀ p ∈ pstore, p.needs_backup_update = true →
      (back_up_user_dates pstore psheet).2 p.id = serialize_pregnancy p) := by
  refine ⟨?_, ?_, ?_, ?_⟩
  · intro u' hu'
    rcases List.mem_map.1 hu' with ⟨u, _, rfl⟩
    by_cases h : u.needs_backup_update
    · simp [h, mark_user_as_synced]
    · simp only [Bool.not_eq_true] at h
      simp [h]
  · intro u hu hdirty
    have hmem : u ∈ get_users_to_backup store :=
      List.mem_filter.2 ⟨hu, by simp [hdirty]⟩
    exact foldl_write_of_nodup User.google_row_id serialize_user
      (get_users_to_backup store) sheet u hmem hnd
  · intro p' hp'
    rcases List.mem_map.1 hp' with ⟨p, _, rfl⟩
    by_cases h : p.needs_backup_update
    · simp [h, mark_pregnancy_as_synced]
    · simp only [Bool.not_eq_true] at h
      simp [h]
  · intro p hp hdirty
    have hmem : p ∈ get_pregnancies_to_backup pstore :=
      List.mem_filter.2 ⟨hp, by simp [hdirty]⟩
    exact foldl_write_of_nodup UserPregnancy.id serialize_pregnancy
      (get_pregnancies_to_backup pstore) psheet p hmem hndp

/-- Witness for `C4_push_sync` at a concrete input: one dirty user (row 3) and
one dirty date-record (row 2) over an initially blank sheet. -/
theorem C4_push_sync_witness :
    (∀ u ∈ (back_up_users [⟨5, "n", none, "ru", true, 3, true⟩] (fun _ => [])).1,
      u.needs_backup_update = false) ∧
    (∀ u ∈ [(⟨5, "n", none, "ru", true, 3, true⟩ : User)], u.needs_backup_update = true →
      (back_up_users [⟨5, "n", none, "ru", true, 3, true⟩] (fun _ => [])).2 u.google_row_id =
        serialize_user u) ∧
    (∀ p ∈ (back_up_user_dates [⟨2, 1, 1, none, none, none, true⟩] (fun _ => [])).1,
      p.needs_backup_update = false) ∧
    (∀ p ∈ [(⟨2, 1, 1, none, none, none, true⟩ : UserPregnancy)],
      p.needs_backup_update = true →
      (back_up_user_dates [⟨2, 1, 1, none, none, none, true⟩] (fun _ => [])).2 p.id =
        serialize_pregnancy p) :=
  C4_push_sync [⟨5, "n", none, "ru", true, 3, true⟩] (fun _ => [])
    [⟨2, 1, 1, none, none, none, true⟩] (fun _ => []) (by decide) (by decide)

/-! ## Claim C5: cold-start pull merge-by-key
(`UserRepository.sync_users`, `UserPregnancyRepository.sync_pregnancies`)

Both sync functions share one shape: build a Python dict of the incoming
records keyed by the business key, update the fields of every existing record
whose key is present, and add the incoming records whose key matched no
existing record.  Nothing is ever deleted. -/

/-- One step of building a Python `dict` keyed by `key`: a repeated key
replaces the stored record in place, a fresh key is appended (CPython dicts
preserve first-insertion order and keep the last value). -/
def py_dict_insert {α κ : Type} [DecidableEq κ] (key : α → κ) (d : List α) (x : α) :
    List α :=
  if d.any (fun y => key y = key x) then d.map (fun y => if key y = key x then x else y)
  else d ++ [x]

/-- `{key(user): user for user in users}`. -/
def py_dict {α κ : Type} [DecidableEq κ] (key : α → κ) (l : List α) : List α :=
  l.foldl (py_dict_insert key) []

/-- The common shape of `sync_users` / `sync_pregnancies`:

```python
new_dict = {key(r): r for r in incoming}
for rec in existing:
    if key(rec) in new_dict:
        existing_ids.append(key(rec))
        <overwrite rec's synced fields from new_dict[key(rec)]>
for k, rec in new_dict.items():
    if k not in existing_ids:
        to_add.append(rec)
<store := updated existing + to_add>
```
-/
def merge_by_key {α κ : Type} [DecidableEq κ] (key : α → κ) (upd : α → α → α)
    (existing incoming : List α) : List α :=
  let dict := py_dict key incoming
  let matched_keys := (existing.filter (fun e => dict.any (fun i => key i = key e))).map key
  let updated := existing.map (fun e =>
    match dict.find? (fun i => key i = key e) with
    | some i => upd e i
    | none => e)
  updated ++ dict.filter (fun i => ¬ key i ∈ matched_keys)

/-- `UserRepository.sync_users`: key `id`; the synced fields are `full_name`,
`username`, `language`, `reaction` and `google_row_id` (`needs_backup_update`
is left as it is). -/
def sync_users (existing incoming : List User) : List User :=
  merge_by_key User.id
    (fun e i => { e with
      full_name := i.full_name
      username := i.username
      language := i.language
      reaction := i.reaction
      google_row_id := i.google_row_id })
    existing incoming

/-- `UserPregnancyRepository.sync_pregnancies`: key `(user_id, chat_id)`; the
synced fields are `pdr_date`, `period_date` and `gender`. -/
def sync_pregnancies (existing incoming : List UserPregnancy) : List UserPregnancy :=
  merge_by_key (fun p => (p.user_id, p.chat_id))
    (fun e i => { e with
      pdr_date := i.pdr_date
      period_date := i.period_date
      gender := i.gender })
    existing incoming

theorem py_dict_go_nodup {α κ : Type} [DecidableEq κ] (key : α → κ) :
    ∀ (l acc : List α), (acc.map key ++ l.map key).Nodup →
      l.foldl (py_dict_insert key) acc = acc ++ l
  | [], acc, _ => by simp
  | x :: l, acc, h => by
    have hfresh : key x ∉ acc.map key := by
      rcases List.nodup_append.1 h with ⟨-, -, hdisj⟩
      intro hk
      exact hdisj hk (by simp)
    have hany : acc.any (fun y => key y = key x) = false := by
      rw [List.any_eq_false]
      intro y hy
      simp only [decide_eq_true_eq]
      intro hk
      exact hfresh (hk ▸ List.mem_map_of_mem key hy)
    rw [List.foldl_cons]
    show l.foldl (py_dict_insert key) (py_dict_insert key acc x) = acc ++ x :: l
    rw [show py_dict_insert key acc x = acc ++ [x] by
      unfold py_dict_insert; rw [hany]; simp]
    rw [py_dict_go_nodup key l (acc ++ [x]) (by simpa using h)]
    simp

/-- With pairwise distinct keys the dict is just the incoming list. -/
theorem py_dict_nodup {α κ : Type} [DecidableEq κ] (key : α → κ) (l : List α)
    (h : (l.map key).Nodup) : py_dict key l = l := by
  unfold py_dict
  rw [py_dict_go_nodup key l [] (by simpa using h)]
  simp

/-- With pairwise distinct keys, `find?` on the key of a member returns
exactly that member. -/
theorem find?_unique_key {α κ : Type} [DecidableEq κ] (key : α → κ) :
    ∀ (l : List α), (l.map key).Nodup → ∀ i ∈ l, ∀ k, key i = k →
      l.find? (fun j => key j = k) = some i
  | x :: l, hnd, i, hi, k, hk => by
    have hnd' : (∀ y ∈ l, ¬ key y = key x) ∧ (l.map key).Nodup := by simpa using hnd
    by_cases hx : key x = k
    · have hxi : x = i := by
        rcases List.mem_cons.1 hi with h1 | h2
        · exact h1.symm
        · exact absurd (hk.trans hx.symm) (hnd'.1 i h2)
      rw [List.find?_cons_of_pos _ (by simpa using hx), hxi]
    · have hil : i ∈ l := by
        rcases List.mem_cons.1 hi with h1 | h2
        · exact absurd (h1 ▸ hk) hx
        · exact h2
      rw [List.find?_cons_of_neg _ (by simpa using hx)]
      exact find?_unique_key key l hnd'.2 i hil k hk

/-- The three merge-by-key cases: store-only records are kept as they are,
matched records are updated with the incoming values, incoming-only records
are inserted. -/
theorem merge_by_key_cases {α κ : Type} [DecidableEq κ] (key : α → κ) (upd : α → α → α)
    (existing incoming : List α) (hnd : (incoming.map key).Nodup) :
    (∀ e ∈ existing, key e ∉ incoming.map key →
      e ∈ merge_by_key key upd existing incoming) ∧
    (∀ e ∈ existing, ∀ i ∈ incoming, key i = key e →
      upd e i ∈ merge_by_key key upd existing incoming) ∧
    (∀ i ∈ incoming, key i ∉ existing.map key →
      i ∈ merge_by_key key upd existing incoming) := by
  simp only [merge_by_key, py_dict_nodup key incoming hnd]
  refine ⟨?_, ?_, ?_⟩
  · intro e he hk
    refine List.mem_append_left _ (List.mem_map.2 ⟨e, he, ?_⟩)
    have hfind : incoming.find? (fun i => key i = key e) = none := by
      rw [List.find?_eq_none]
      intro j hj
      simp only [decide_eq_true_eq]
      intro hk'
      exact hk (hk' ▸ List.mem_map_of_mem key hj)
    rw [hfind]
  · intro e he i hi hk
    refine List.mem_append_left _ (List.mem_map.2 ⟨e, he, ?_⟩)
    rw [find?_unique_key key incoming hnd i hi (key e) hk]
  · intro i hi hk
    refine List.mem_append_right _ (List.mem_filter.2 ⟨hi, ?_⟩)
    simp only [decide_eq_true_eq]
    intro hmem
    rcases List.mem_map.1 hmem with ⟨e, hef, hkey⟩
    exact hk (hkey ▸ List.mem_map_of_mem key (List.mem_filter.1 hef).1)

/-- **C5.**  The cold-start pull never deletes: for incoming records with
pairwise distinct keys (one spreadsheet row per key), every existing record
whose key is absent from the incoming set stays in the store entirely
unchanged; every existing record whose key matches an incoming record is
replaced by the copy updated with the incoming field values; and every
incoming record whose key matches no existing record is inserted as is.
This holds for both entities (users and date-records). -/
theorem C5_pull_never_deletes (existing incoming : List User)
    (pexisting pincoming : List UserPregnancy)
    (hnd : (incoming.map User.id).Nodup)
    (hndp : (pincoming.map (fun p => (p.user_id, p.chat_id))).Nodup) :
    (∀ e ∈ existing, e.id ∉ incoming.map User.id →
      e ∈ sync_users existing incoming) ∧
    (∀ e ∈ existing, ∀ i ∈ incoming, i.id = e.id →
      ({ e with
         full_name := i.full_name
         username := i.username
         language := i.language
         reaction := i.reaction
         google_row_id := i.google_row_id } : User) ∈ sync_users existing incoming) ∧
    (∀ i ∈ incoming, i.id ∉ existing.map User.id →
      i ∈ sync_users existing incoming) ∧
    (∀ e ∈ pexisting, (e.user_id, e.chat_id) ∉ pincoming.map (fun p => (p.user_id, p.chat_id)) →
      e ∈ sync_pregnancies pexisting pincoming) ∧
    (∀ e ∈ pexisting, ∀ i ∈ pincoming, (i.user_id, i.chat_id) = (e.user_id, e.chat_id) →
      ({ e with
         pdr_date := i.pdr_date
         period_date := i.period_date
         gender := i.gender } : UserPregnancy) ∈ sync_pregnancies pexisting pincoming) ∧
    (∀ i ∈ pincoming, (i.user_id, i.chat_id) ∉ pexisting.map (fun p => (p.user_id, p.chat_id)) →
      i ∈ sync_pregnancies pexisting pincoming) := by
  have huser := merge_by_key_cases User.id
    (fun e i => { e with
      full_name := i.full_name
      username := i.username
      language := i.language
      reaction := i.reaction
      google_row_id := i.google_row_id })
    existing incoming hnd
  have hpreg := merge_by_key_cases (fun p : UserPregnancy => (p.user_id, p.chat_id))
    (fun e i => { e with
      pdr_date := i.pdr_date
      period_date := i.period_date
      gender := i.gender })
    pexisting pincoming hndp
  exact ⟨huser.1, huser.2.1, huser.2.2, hpreg.1, hpreg.2.1, hpreg.2.2⟩

/-- Witness for `C5_pull_never_deletes` at a concrete input: user 1 is
store-only and kept, user 2 is updated from the incoming row, user 3 is
incoming-only and inserted. -/
theorem C5_pull_never_deletes_witness :
    (⟨1, "a", none, "ru", false, 2, false⟩ : User) ∈
        sync_users
          [⟨1, "a", none, "ru", false, 2, false⟩, ⟨2, "b", none, "ru", false, 3, false⟩]
          [⟨2, "B", some "bb", "en", true, 5, false⟩, ⟨3, "c", none, "ru", false, 6, false⟩] ∧
    (⟨2, "B", some "bb", "en", true, 5, false⟩ : User) ∈
        sync_users
          [⟨1, "a", none, "ru", false, 2, false⟩, ⟨2, "b", none, "ru", false, 3, false⟩]
          [⟨2, "B", some "bb", "en", true, 5, false⟩, ⟨3, "c", none, "ru", false, 6, false⟩] ∧
    (⟨3, "c", none, "ru", false, 6, false⟩ : User) ∈
        sync_users
          [⟨1, "a", none, "ru", false, 2, false⟩, ⟨2, "b", none, "ru", false, 3, false⟩]
          [⟨2, "B", some "bb", "en", true, 5, false⟩, ⟨3, "c", none, "ru", false, 6, false⟩] :=
  have h := C5_pull_never_deletes
    [⟨1, "a", none, "ru", false, 2, false⟩, ⟨2, "b", none, "ru", false, 3, false⟩]
    [⟨2, "B", some "bb", "en", true, 5, false⟩, ⟨3, "c", none, "ru", false, 6, false⟩]
    [⟨1, 1, 1, none, none, none, false⟩] [⟨2, 2, 2, some 5, none, none, false⟩]
    (by decide) (by decide)
  ⟨h.1 ⟨1, "a", none, "ru", false, 2, false⟩ (by decide) (by decide),
   h.2.1 ⟨2, "b", none, "ru", false, 3, false⟩ (by decide)
     ⟨2, "B", some "bb", "en", true, 5, false⟩ (by decide) (by decide),
   h.2.2.1 ⟨3, "c", none, "ru", false, 6, false⟩ (by decide) (by decide)⟩

end PdrBot

